import Mathlib

/-!
Verification of the voice-orchestration core of the Callwaiting-AI "Voxanne"
repository, as a shallow embedding in Lean 4.

The embedded code comes from:
  * `src/conversation_manager.py`  (ConversationManager: state machine,
    semantic endpointer, `_generate_response`, `_handle_barge_in`,
    `handle_audio`, `_looks_complete`, `_start_semantic_timer`);
  * `src/roxanne_vad_handler.py`   (EchoCanceller.process,
    VADIntegration.detect_barge_in);
  * `src/roxanne_production.py`    (VoxanneOrchestrator._process error path).

Python strings are modelled as `List Char` (wrapped into `String` at claim
level), machine floats that only feed order comparisons as `ℚ`, and the
asyncio event loop as explicit traces / transition systems with one step per
region between `await` points (code between two awaits runs atomically on the
single-threaded loop).
-/

namespace Voxanne

/-! ## Python string primitives -/

/-- Whitespace as recognised by Python `str.strip` / `str.split`:
space, tab, newline, carriage return, vertical tab, form feed. -/
def pyIsSpace (c : Char) : Bool :=
  c = ' ' || c = '\t' || c = '\n' || c = '\r' || c = '\x0b' || c = '\x0c'

/-- Python `str.lstrip()`. -/
def pyLstrip (l : List Char) : List Char := l.dropWhile pyIsSpace

/-- Python `str.rstrip()`. -/
def pyRstrip (l : List Char) : List Char :=
  (l.reverse.dropWhile pyIsSpace).reverse

/-- Python `str.strip()`. -/
def pyStrip (l : List Char) : List Char := pyLstrip (pyRstrip l)

/-- Python `str.lower()` (ASCII case folding, which is all the source uses). -/
def pyLower (l : List Char) : List Char := l.map Char.toLower

/-- Python `str.split()` with no argument: split on whitespace runs,
discarding empty pieces.  `acc` holds the current word reversed. -/
def pySplitAux : List Char → List Char → List (List Char)
  | [], acc => if acc.isEmpty then [] else [acc.reverse]
  | c :: cs, acc =>
    if pyIsSpace c then
      if acc.isEmpty then pySplitAux cs [] else acc.reverse :: pySplitAux cs []
    else pySplitAux cs (c :: acc)

def pySplit (l : List Char) : List (List Char) := pySplitAux l []

/-- Python `s.split(sep, 1)` when `sep` occurs in `s`: the part before the
first occurrence of `sep` and the part after it. -/
def splitOnce (sep : List Char) : List Char → Option (List Char × List Char)
  | [] => if sep.isEmpty then some ([], []) else none
  | c :: cs =>
    if sep.isPrefixOf (c :: cs) then some ([], (c :: cs).drop sep.length)
    else
      match splitOnce sep cs with
      | some (pre, post) => some (c :: pre, post)
      | none => none

theorem splitOnce_eq_append {sep : List Char} {l pre post : List Char}
    (h : splitOnce sep l = some (pre, post)) : l = pre ++ sep ++ post := by
  induction l generalizing pre post with
  | nil =>
    by_cases hsep : sep.isEmpty
    · rw [show splitOnce sep [] = some ([], []) from by simp [splitOnce, hsep]] at h
      injection h with h
      injection h with h1 h2
      subst h1; subst h2
      simp [List.isEmpty_iff.mp hsep]
    · rw [show splitOnce sep [] = none from by simp [splitOnce, hsep]] at h
      exact absurd h (by simp)
  | cons c cs ih =>
    by_cases hpre : sep.isPrefixOf (c :: cs)
    · rw [show splitOnce sep (c :: cs) = some ([], (c :: cs).drop sep.length) from by
        simp [splitOnce, hpre]] at h
      injection h with h
      injection h with h1 h2
      subst h1; subst h2
      obtain ⟨tail, htail⟩ := List.isPrefixOf_iff_prefix.mp hpre
      rw [← htail, List.drop_left]
      simp
    · cases hrec : splitOnce sep cs with
      | none =>
        rw [show splitOnce sep (c :: cs) = none from by simp [splitOnce, hpre, hrec]] at h
        exact absurd h (by simp)
      | some pr =>
        obtain ⟨a, b⟩ := pr
        rw [show splitOnce sep (c :: cs) = some (c :: a, b) from by
          simp [splitOnce, hpre, hrec]] at h
        injection h with h
        injection h with h1 h2
        subst h1; subst h2
        simp [ih hrec]

/-! ## `_looks_complete` and `_start_semantic_timer`
(`src/conversation_manager.py` lines 419-461) -/

/-- The `complete_phrases` list of `_looks_complete`. -/
def completePhrases : List String :=
  ["hello", "hi", "hey", "yes", "no", "yeah", "nope", "okay", "ok",
   "sure", "thanks", "thank you", "bye", "goodbye", "please",
   "i see", "got it", "sounds good", "that works", "perfect"]

/-- The `question_starters` list of `_looks_complete`. -/
def questionStarters : List String :=
  ["who ", "what ", "when ", "where ", "why ", "how ",
   "can ", "do ", "does ", "is ", "are ", "will ", "would "]

/--
`ConversationManager._looks_complete(transcript)`.

The source first returns `False` on an empty transcript, then evaluates
`transcript.rstrip()[-1] in '.?!'`, then membership of
`transcript.lower().strip()` in `complete_phrases`, then the question-starter
loop with `len(transcript.split()) >= 3`.  Returns `none` where the Python
code raises: `transcript.rstrip()[-1]` is an `IndexError` when the transcript
is nonempty but all whitespace.
-/
def looksComplete (transcript : String) : Option Bool :=
  if transcript.toList.isEmpty then some false
  else
    match (pyRstrip transcript.toList).getLast? with
    | none => none
    | some last =>
      if last = '.' || last = '?' || last = '!' then some true
      else if completePhrases.any
          (fun p => p.toList = pyStrip (pyLower transcript.toList)) then some true
      else if questionStarters.any
          (fun s => s.toList.isPrefixOf (pyStrip (pyLower transcript.toList))
            && (pySplit transcript.toList).length ≥ 3) then some true
      else some false

/-- `_start_semantic_timer`: the delay used for the semantic timer,
`min(self.endpoint_ms, 150)` milliseconds. -/
def semanticDelayMs (endpointMs : ℕ) : ℕ := min endpointMs 150

/-- `_silence_timeout` sleeps `endpoint_ms / 1000 + 0.05` seconds, i.e. the
silence timer fires `endpoint_ms + 50` milliseconds after its last reset. -/
def silenceDelayMs (endpointMs : ℕ) : ℕ := endpointMs + 50

/-- Whether a character list ends with `'.'`, `'?'` or `'!'`. -/
def endsInPunct (l : List Char) : Bool :=
  match l.getLast? with
  | some c => c = '.' || c = '?' || c = '!'
  | none => false

/-- The property claimed of `_looks_complete`, read literally: the transcript
itself ends with terminal punctuation, or its lower-cased stripped form is a
listed phrase, or it starts with a listed question word and has ≥ 3 words. -/
def looksCompleteClaim (transcript : String) : Bool :=
  let t := transcript.toList
  let lower := pyStrip (pyLower t)
  endsInPunct t
  || completePhrases.any (fun p => p.toList = lower)
  || questionStarters.any
      (fun s => s.toList.isPrefixOf lower && (pySplit t).length ≥ 3)

/-- `_looks_complete` as the amended claim describes it: the criterion is the
claimed one except that terminal punctuation is tested on the
*right-stripped* transcript, matching `transcript.rstrip()[-1] in '.?!'`. -/
def looksCompleteAmended (transcript : String) : Bool :=
  let t := transcript.toList
  let lower := pyStrip (pyLower t)
  endsInPunct (pyRstrip t)
  || completePhrases.any (fun p => p.toList = lower)
  || questionStarters.any
      (fun s => s.toList.isPrefixOf lower && (pySplit t).length ≥ 3)

/-- Folding two `True` short-circuits into one boolean disjunction. -/
theorem ite_some_true_or3 (a b c : Bool) :
    (if a then some true else if b then some true
     else if c then some true else (some false : Option Bool))
    = some (a || b || c) := by
  cases a <;> cases b <;> cases c <;> rfl

/-- C6 counterexample: on the transcript `"yes. "`, `_looks_complete` returns
`True` (the right-stripped form ends with a period), but the claimed
criterion is false: `"yes. "` ends with a space rather than `'.'`, `'?'` or
`'!'`, its lower-cased stripped form `"yes."` is not in the phrase list, and
it matches no question pattern.  Moreover on the nonempty transcript `" "`
the function does not return a boolean at all: `transcript.rstrip()[-1]`
raises `IndexError`. -/
theorem looks_complete_counterexample :
    looksComplete "yes. " = some true ∧ looksCompleteClaim "yes. " = false
    ∧ looksComplete " " = none := by
  refine ⟨by decide, by decide, by decide⟩

/-- C6 (amended): for every transcript containing at least one
non-whitespace character, `_looks_complete` returns `True` exactly when the
right-stripped transcript ends with `'.'`, `'?'` or `'!'`, or the lower-cased
stripped form is one of the fixed short complete phrases, or it starts with a
listed question word and has at least 3 whitespace-separated words; and the
semantic timer delay `min(endpoint_ms, 150)` never exceeds the main silence
threshold `endpoint_ms` (hence stays below the silence timer delay
`endpoint_ms + 50`). -/
theorem looks_complete_characterization :
    (∀ transcript : String, pyRstrip transcript.toList ≠ [] →
      looksComplete transcript = some (looksCompleteAmended transcript))
    ∧ (∀ endpointMs : ℕ,
        semanticDelayMs endpointMs ≤ endpointMs
        ∧ semanticDelayMs endpointMs < silenceDelayMs endpointMs) := by
  constructor
  · intro transcript h
    have ht : transcript.toList.isEmpty = false := by
      cases hte : transcript.toList.isEmpty
      · rfl
      · exact absurd (by rw [List.isEmpty_iff.mp hte]; rfl) h
    cases hl : (pyRstrip transcript.toList).getLast? with
    | none =>
      refine absurd ?_ h
      cases hr : pyRstrip transcript.toList with
      | nil => rfl
      | cons x xs => rw [hr] at hl; simp at hl
    | some last =>
      have hA : endsInPunct (pyRstrip transcript.toList)
          = (last = '.' || last = '?' || last = '!') := by
        unfold endsInPunct; rw [hl]
      simp only [looksComplete, looksCompleteAmended, ht, hl, hA]
      rw [ite_some_true_or3]
      exact if_neg (by decide)
  · intro endpointMs
    refine ⟨Nat.min_le_left _ _, lt_of_le_of_lt (Nat.min_le_left _ _) ?_⟩
    unfold silenceDelayMs
    omega

example : looksComplete "how are you" = some true := by decide
example : looksComplete "how are" = some false := by decide
example : looksComplete "how" = some false := by decide

/-- Witness for `looks_complete_characterization` at the transcript
`"how are you"` and endpoint 180 ms. -/
theorem looks_complete_characterization_witness :
    looksComplete "how are you" = some (looksCompleteAmended "how are you")
    ∧ (semanticDelayMs 180 ≤ 180 ∧ semanticDelayMs 180 < silenceDelayMs 180) :=
  ⟨looks_complete_characterization.1 "how are you" (by decide),
   looks_complete_characterization.2 180⟩

/-! ## Conversation state machine states (`ConversationState`, lines 41-47) -/

inductive ConvState where
  | listening
  | userSpeaking
  | thinking
  | speaking
  | interrupted
deriving DecidableEq, Repr, Fintype

/-- A role-tagged dialog history entry (`ctx.messages` elements). -/
structure Msg where
  role : String
  content : String
deriving DecidableEq, Repr

/-! ## `_generate_response` (`src/conversation_manager.py` lines 563-626)

The LLM stream is modelled by the list of `delta` strings its chunks carry
(line 585).  The body of the `async for` loop runs atomically between awaits
on the single-threaded event loop; cancellation by `_handle_barge_in`
(lines 276-305) reaches the task in one of two ways:

* the `CancelledError` is delivered at the stream-iteration await and
  propagates to the handler at line 622 (`GenOutcome.cancelledAfter k`:
  `k` deltas were already processed);
* the `CancelledError` is delivered while the task is suspended inside
  `_speak_sentence`, whose own `except asyncio.CancelledError` (line 671)
  swallows it; the loop then observes `state == INTERRUPTED` at its head
  (line 581) and breaks (`GenOutcome.interruptedAfter k`).  `k` may equal
  the number of deltas: the state may flip to INTERRUPTED after the last
  chunk, in which case the loop ends normally and the flush at line 606 is
  skipped by its own INTERRUPTED test.
-/

/-- The sentence boundary markers of line 595, in source order. -/
def sentencePuncts : List (List Char) :=
  [['.', ' '], ['!', ' '], ['?', ' '], ['.', '\n'], ['!', '\n'], ['?', '\n']]

/-- The `for punct in [...]` loop of lines 595-603: the puncts are tried in
list order and the first one occurring in the buffer wins; the buffer is
split at that punct's first occurrence, and `punct.strip()` is the bare
punctuation character (the head of the two-character marker). -/
def findPunctSplitAux :
    List (List Char) → List Char → Option (List Char × Char × List Char)
  | [], _ => none
  | p :: ps, buf =>
    match splitOnce p buf with
    | some (pre, post) => some (pre, p.headD ' ', post)
    | none => findPunctSplitAux ps buf

def findPunctSplit (buf : List Char) : Option (List Char × Char × List Char) :=
  findPunctSplitAux sentencePuncts buf

/-- Loop-local accumulator of `_generate_response`: `response_text`,
`sentence_buffer`, and the chunks passed to `_speak_sentence` so far. -/
structure GenAcc where
  responseText : List Char
  buf : List Char
  chunks : List String
deriving DecidableEq, Repr

/-- Lines 601-602: `if sentence.strip(): await self._speak_sentence(sentence.strip())`. -/
def speakChunkOf (sentence : List Char) : List String :=
  if pyStrip sentence = [] then [] else [String.mk (pyStrip sentence)]

/-- One iteration of the `async for chunk in stream` body (lines 585-603). -/
def processDelta (acc : GenAcc) (delta : List Char) : GenAcc :=
  match findPunctSplit (acc.buf ++ delta) with
  | none =>
    { responseText := acc.responseText ++ delta
      buf := acc.buf ++ delta
      chunks := acc.chunks }
  | some (pre, pc, post) =>
    { responseText := acc.responseText ++ delta
      buf := post
      chunks := acc.chunks ++ speakChunkOf (pre ++ [pc]) }

def genFold (deltas : List (List Char)) : GenAcc :=
  deltas.foldl processDelta ⟨[], [], []⟩

/-- How a `_generate_response` run ends (see the section comment above). -/
inductive GenOutcome where
  | completed
  | interruptedAfter (k : ℕ)
  | cancelledAfter (k : ℕ)
deriving DecidableEq, Repr

/-- Observable actions of a `_generate_response` run, in program order. -/
inductive GAction where
  | setState (s : ConvState)
  | speakChunk (text : String)
  | appendAssistant (content : String)
deriving DecidableEq, Repr

structure GenResult where
  messages : List Msg
  chunks : List String
  trace : List GAction
deriving DecidableEq, Repr

/-- Line 610-611: `if response_text: self.ctx.messages.append({"role": "assistant", ...})`. -/
def assistantAppend (msgs : List Msg) (text : List Char) : List Msg :=
  if text.isEmpty then msgs else msgs ++ [⟨"assistant", String.mk text⟩]

def appendActions (text : List Char) : List GAction :=
  if text.isEmpty then [] else [.appendAssistant (String.mk text)]

/--
`ConversationManager._generate_response` (lines 563-626), started by
`_process_user_input` after it appended the user's utterance to
`ctx.messages`.

* `completed`: the stream is drained, the state was set to SPEAKING right
  after the stream was created (line 578), the leftover buffer is flushed
  (lines 606-607), the full `response_text` is appended to history
  (lines 610-611) and the state returns to LISTENING (line 620).
* `interruptedAfter k`: the INTERRUPTED state is observed at the loop head
  (line 581) after `k` deltas; the flush is skipped, but the history append
  of lines 610-611 still runs on the partial `response_text`.
* `cancelledAfter k`: a `CancelledError` propagates out of the stream
  iteration after `k` deltas and is caught at line 622; nothing below the
  loop runs, so the history is untouched.
-/
def generateResponse (msgs : List Msg) (deltas : List String) (o : GenOutcome) :
    GenResult :=
  let ds := deltas.map String.toList
  match o with
  | .completed =>
    let acc := genFold ds
    let allChunks := acc.chunks ++ speakChunkOf acc.buf
    { messages := assistantAppend msgs acc.responseText
      chunks := allChunks
      trace := .setState .speaking :: allChunks.map .speakChunk
        ++ appendActions acc.responseText ++ [.setState .listening] }
  | .interruptedAfter k =>
    let acc := genFold (ds.take k)
    { messages := assistantAppend msgs acc.responseText
      chunks := acc.chunks
      trace := .setState .speaking :: acc.chunks.map .speakChunk
        ++ appendActions acc.responseText }
  | .cancelledAfter k =>
    let acc := genFold (ds.take k)
    { messages := msgs
      chunks := acc.chunks
      trace := .setState .speaking :: acc.chunks.map .speakChunk }

/-- The concatenation of the streamed deltas (= `response_text`). -/
def deltasText (deltas : List String) : List Char :=
  (deltas.map String.toList).flatten

/-- All characters of the emitted chunks, in order. -/
def chunksChars (cs : List String) : List Char := (cs.map String.toList).flatten

/-- A character list with its whitespace removed. -/
def filterNonSpace (l : List Char) : List Char := l.filter (fun c => !pyIsSpace c)

theorem foldl_responseText (deltas : List (List Char)) (acc : GenAcc) :
    (deltas.foldl processDelta acc).responseText
      = acc.responseText ++ deltas.flatten := by
  induction deltas generalizing acc with
  | nil => simp
  | cons d ds ih =>
    rw [List.foldl_cons, ih]
    have hstep : (processDelta acc d).responseText = acc.responseText ++ d := by
      unfold processDelta
      cases findPunctSplit (acc.buf ++ d) with
      | none => rfl
      | some pr => obtain ⟨pre, pc, post⟩ := pr; rfl
    rw [hstep, List.flatten_cons, List.append_assoc]

theorem findPunctSplitAux_spec {ps : List (List Char)} {buf pre post : List Char}
    {pc : Char}
    (hps : ∀ p ∈ ps, ∃ c w, p = [c, w] ∧ pyIsSpace c = false ∧ pyIsSpace w = true
      ∧ p.headD ' ' = c)
    (h : findPunctSplitAux ps buf = some (pre, pc, post)) :
    ∃ w, buf = pre ++ [pc, w] ++ post ∧ pyIsSpace w = true ∧ pyIsSpace pc = false := by
  induction ps with
  | nil => simp [findPunctSplitAux] at h
  | cons p ps ih =>
    obtain ⟨c, w, hp, hc, hw, hhead⟩ := hps p (List.mem_cons_self _ _)
    unfold findPunctSplitAux at h
    cases hs : splitOnce p buf with
    | some pr =>
      obtain ⟨a, b⟩ := pr
      rw [hs] at h
      injection h with h
      injection h with h1 h
      injection h with h2 h3
      subst h1; subst h2; subst h3
      refine ⟨w, ?_, hw, ?_⟩
      · have := splitOnce_eq_append hs
        rw [this, hp]
        rfl
      · rw [hhead]
        exact hc
    | none =>
      rw [hs] at h
      exact ih (fun q hq => hps q (List.mem_cons_of_mem _ hq)) h

theorem findPunctSplit_spec {buf pre post : List Char} {pc : Char}
    (h : findPunctSplit buf = some (pre, pc, post)) :
    ∃ w, buf = pre ++ [pc, w] ++ post ∧ pyIsSpace w = true ∧ pyIsSpace pc = false := by
  refine findPunctSplitAux_spec ?_ h
  intro p hp
  simp only [sentencePuncts, List.mem_cons, List.not_mem_nil, or_false] at hp
  rcases hp with h1 | h1 | h1 | h1 | h1 | h1 <;> subst h1
  · exact ⟨'.', ' ', rfl, rfl, rfl, rfl⟩
  · exact ⟨'!', ' ', rfl, rfl, rfl, rfl⟩
  · exact ⟨'?', ' ', rfl, rfl, rfl, rfl⟩
  · exact ⟨'.', '\n', rfl, rfl, rfl, rfl⟩
  · exact ⟨'!', '\n', rfl, rfl, rfl, rfl⟩
  · exact ⟨'?', '\n', rfl, rfl, rfl, rfl⟩

theorem filterNS_append (a b : List Char) :
    filterNonSpace (a ++ b) = filterNonSpace a ++ filterNonSpace b := by
  unfold filterNonSpace
  rw [List.filter_append]

theorem filterNS_dropWhile (l : List Char) :
    filterNonSpace (l.dropWhile pyIsSpace) = filterNonSpace l := by
  induction l with
  | nil => rfl
  | cons c cs ih =>
    unfold filterNonSpace at *
    rw [List.dropWhile_cons]
    by_cases hc : pyIsSpace c = true
    · simp [hc, List.filter_cons, ih]
    · simp [hc, List.filter_cons, Bool.not_eq_true _ ▸ hc]

theorem filterNS_reverse (l : List Char) :
    filterNonSpace l.reverse = (filterNonSpace l).reverse := by
  unfold filterNonSpace
  rw [List.filter_reverse]

theorem filterNS_pyStrip (l : List Char) :
    filterNonSpace (pyStrip l) = filterNonSpace l := by
  unfold pyStrip pyLstrip pyRstrip
  rw [filterNS_dropWhile, filterNS_reverse, filterNS_dropWhile, filterNS_reverse,
    List.reverse_reverse]

theorem chunksChars_append (a b : List String) :
    chunksChars (a ++ b) = chunksChars a ++ chunksChars b := by
  unfold chunksChars
  rw [List.map_append, List.flatten_append]

theorem filterNS_speakChunkOf (s : List Char) :
    filterNonSpace (chunksChars (speakChunkOf s)) = filterNonSpace s := by
  unfold speakChunkOf
  by_cases hs : pyStrip s = []
  · rw [if_pos hs]
    have h2 := filterNS_pyStrip s
    rw [hs] at h2
    exact h2.symm ▸ rfl
  · rw [if_neg hs]
    have : chunksChars [String.mk (pyStrip s)] = pyStrip s := by
      simp [chunksChars]
    rw [this, filterNS_pyStrip]

theorem processDelta_filterNS (acc : GenAcc) (d : List Char) :
    filterNonSpace (chunksChars (processDelta acc d).chunks ++ (processDelta acc d).buf)
      = filterNonSpace (chunksChars acc.chunks ++ acc.buf ++ d) := by
  unfold processDelta
  cases hf : findPunctSplit (acc.buf ++ d) with
  | none => simp [List.append_assoc]
  | some pr =>
    obtain ⟨pre, pc, post⟩ := pr
    obtain ⟨w, hbuf, hw, hpc⟩ := findPunctSplit_spec hf
    rw [List.append_assoc, hbuf]
    simp only [chunksChars_append, filterNS_append, filterNS_speakChunkOf]
    have h1 : filterNonSpace [pc, w] = [pc] := by
      unfold filterNonSpace
      simp [List.filter_cons, hpc, hw]
    have h3 : filterNonSpace [pc] = [pc] := by
      unfold filterNonSpace
      simp [List.filter_cons, hpc]
    rw [h1, h3]
    simp [List.append_assoc]

theorem foldl_filterNS (deltas : List (List Char)) (acc : GenAcc) :
    filterNonSpace (chunksChars (deltas.foldl processDelta acc).chunks
        ++ (deltas.foldl processDelta acc).buf)
      = filterNonSpace (chunksChars acc.chunks ++ acc.buf ++ deltas.flatten) := by
  induction deltas generalizing acc with
  | nil => simp
  | cons d ds ih =>
    rw [List.foldl_cons, ih, List.flatten_cons]
    have expand : ∀ x y z : List Char,
        filterNonSpace (x ++ y ++ z) = filterNonSpace (x ++ y) ++ filterNonSpace z := by
      intro x y z
      rw [filterNS_append]
    rw [expand, expand, processDelta_filterNS,
      filterNS_append (chunksChars acc.chunks ++ acc.buf) d, filterNS_append d ds.flatten,
      List.append_assoc]

theorem genFold_filterNS (deltas : List (List Char)) :
    filterNonSpace (chunksChars (genFold deltas).chunks ++ (genFold deltas).buf)
      = filterNonSpace deltas.flatten := by
  unfold genFold
  rw [foldl_filterNS]
  simp [chunksChars, filterNonSpace]

/-- C1 counterexample: a barge-in whose `CancelledError` is swallowed inside
`_speak_sentence` makes `_generate_response` break out of its loop via the
INTERRUPTED check at line 581 and then run the unguarded history append of
lines 610-611: after streaming the single delta `"Hello"` the cancelled turn
leaves history ending in the partial assistant entry `"Hello"`, not in the
user's utterance. -/
theorem partial_history_counterexample :
    (generateResponse [⟨"user", "Hello there"⟩] ["Hello"]
        (.interruptedAfter 1)).messages
      = [⟨"user", "Hello there"⟩, ⟨"assistant", "Hello"⟩]
    ∧ (generateResponse [⟨"user", "Hello there"⟩] ["Hello"]
        (.interruptedAfter 1)).messages.getLast?
      ≠ some ⟨"user", "Hello there"⟩ := by
  refine ⟨by decide, by decide⟩

/-- C1 (amended): for every turn run by `_generate_response`:
if the turn is cancelled by a `CancelledError` that propagates out of the
stream iteration, the history is unchanged (it still ends with the user's
utterance and no assistant entry is appended); if the cancellation is
instead observed through the INTERRUPTED state flag at the loop head, the
*partial* response text accumulated so far IS appended as an assistant
entry; if the turn completes uninterrupted, exactly one assistant entry is
appended whose content is the concatenation of the streamed deltas, and the
concatenation of the chunks passed to `_speak_sentence` equals that content
up to the whitespace dropped at sentence boundaries. -/
theorem generate_response_history (msgs : List Msg) (deltas : List String) (k : ℕ) :
    ((generateResponse msgs deltas (.cancelledAfter k)).messages = msgs)
    ∧ (deltasText (deltas.take k) ≠ [] →
        (generateResponse msgs deltas (.interruptedAfter k)).messages
          = msgs ++ [⟨"assistant", String.mk (deltasText (deltas.take k))⟩])
    ∧ (deltasText deltas ≠ [] →
        (generateResponse msgs deltas .completed).messages
          = msgs ++ [⟨"assistant", String.mk (deltasText deltas)⟩])
    ∧ filterNonSpace (chunksChars (generateResponse msgs deltas .completed).chunks)
        = filterNonSpace (deltasText deltas) := by
  have htake : (deltas.map String.toList).take k = (deltas.take k).map String.toList :=
    (List.map_take _ _ _).symm
  have hrt : (genFold (deltas.map String.toList)).responseText = deltasText deltas := by
    unfold genFold deltasText
    rw [foldl_responseText]
    rfl
  have hrtk : (genFold ((deltas.map String.toList).take k)).responseText
      = deltasText (deltas.take k) := by
    unfold genFold deltasText
    rw [foldl_responseText, htake]
    rfl
  refine ⟨rfl, ?_, ?_, ?_⟩
  · intro hne
    simp only [generateResponse, assistantAppend, hrtk]
    rw [if_neg (by simpa [List.isEmpty_iff] using hne)]
  · intro hne
    simp only [generateResponse, assistantAppend, hrt]
    rw [if_neg (by simpa [List.isEmpty_iff] using hne)]
  · simp only [generateResponse]
    rw [chunksChars_append, filterNS_append, filterNS_speakChunkOf,
      ← filterNS_append, genFold_filterNS]
    rfl

/-- Witness for `generate_response_history` on the stream
`["Hi. ", "Yo"]` after the user said `"Hello there"`. -/
theorem generate_response_history_witness :
    ((generateResponse [⟨"user", "Hello there"⟩] ["Hi. ", "Yo"]
        (.cancelledAfter 1)).messages = [⟨"user", "Hello there"⟩])
    ∧ ((generateResponse [⟨"user", "Hello there"⟩] ["Hi. ", "Yo"]
        (.interruptedAfter 1)).messages
      = [⟨"user", "Hello there"⟩]
        ++ [⟨"assistant", String.mk (deltasText (["Hi. ", "Yo"].take 1))⟩])
    ∧ ((generateResponse [⟨"user", "Hello there"⟩] ["Hi. ", "Yo"]
        .completed).messages
      = [⟨"user", "Hello there"⟩]
        ++ [⟨"assistant", String.mk (deltasText ["Hi. ", "Yo"])⟩])
    ∧ filterNonSpace (chunksChars (generateResponse [⟨"user", "Hello there"⟩]
          ["Hi. ", "Yo"] .completed).chunks)
        = filterNonSpace (deltasText ["Hi. ", "Yo"]) := by
  obtain ⟨h1, h2, h3, h4⟩ :=
    generate_response_history [⟨"user", "Hello there"⟩] ["Hi. ", "Yo"] 1
  exact ⟨h1, h2 (by decide), h3 (by decide), h4⟩

/-- C8 counterexample: with an LLM stream that produces no speakable chunk at
all, `_generate_response` still sets the state to SPEAKING (line 578 runs
right after the stream is created, before the first chunk): the trace shows
SPEAKING entered although no chunk was ever yielded. -/
theorem speaking_before_chunk_counterexample :
    (generateResponse [⟨"user", "hi"⟩] [] .completed).trace
      = [.setState .speaking, .setState .listening]
    ∧ (generateResponse [⟨"user", "hi"⟩] [] .completed).chunks = [] := by
  refine ⟨by decide, by decide⟩

/-- C8 (amended): the THINKING → SPEAKING transition happens when the
generation stream is opened, *before* the first speakable chunk: in every
run of `_generate_response`, setting the state to SPEAKING is the very first
observable action (hence precedes every chunk), and it happens exactly once
— even on runs that produce no chunk at all. -/
theorem speaking_entered_at_stream_open (msgs : List Msg) (deltas : List String)
    (o : GenOutcome) :
    (generateResponse msgs deltas o).trace.head? = some (.setState .speaking)
    ∧ (generateResponse msgs deltas o).trace.count (.setState .speaking) = 1 := by
  have hmap : ∀ cs : List String,
      (cs.map GAction.speakChunk).count (GAction.setState .speaking) = 0 := by
    intro cs
    rw [List.count_eq_zero]
    intro hmem
    obtain ⟨x, _, hx⟩ := List.mem_map.mp hmem
    exact absurd hx (by simp)
  have happ : ∀ t : List Char,
      (appendActions t).count (GAction.setState .speaking) = 0 := by
    intro t
    unfold appendActions
    by_cases ht : t.isEmpty
    · rw [if_pos ht]; rfl
    · rw [if_neg ht]; rfl
  cases o with
  | completed =>
    refine ⟨rfl, ?_⟩
    simp only [generateResponse, List.count_cons, List.count_append, hmap, happ]
    rfl
  | interruptedAfter k =>
    refine ⟨rfl, ?_⟩
    simp only [generateResponse, List.count_cons, List.count_append, hmap, happ]
    rfl
  | cancelledAfter k =>
    refine ⟨rfl, ?_⟩
    simp only [generateResponse, List.count_cons, hmap]
    rfl

/-! ## `_handle_barge_in` (lines 276-305) and `handle_audio` (lines 246-274) -/

/-- State of an `Optional[asyncio.Task]` slot (`ctx.llm_task` / `ctx.tts_task`):
`noTask` is Python `None`, `running` a task with `done()` false, `done` a
finished task still referenced by the slot. -/
inductive TaskStatus where
  | noTask
  | running
  | done
deriving DecidableEq, Repr

/-- Observable actions of the audio-input path, in program order.
`cancelAwait true` is the cancel-and-await of `ctx.llm_task`
(lines 284-290), `cancelAwait false` the same for `ctx.tts_task`
(lines 293-299); `sendClear` is `_send_clear_audio` (lines 698-707), and
`sendSTT` is the `deepgram_ws.send` of line 272. -/
inductive MAction where
  | setState (s : ConvState)
  | cancelAwait (generation : Bool)
  | sendClear
  | sendSTT
deriving DecidableEq, Repr

/-- Lines 284-290 / 293-299: a task that exists and is not done is cancelled
and awaited until it reports cancelled or completed. -/
def cancelActions (isGen : Bool) (t : TaskStatus) : List MAction :=
  match t with
  | .running => [.cancelAwait isGen]
  | _ => []

/-- The task slot after `_handle_barge_in`: a running task is awaited to the
end and the slot is set to `None`; a `None` or already-done slot is left
untouched. -/
def afterCancel (t : TaskStatus) : TaskStatus :=
  match t with
  | .running => .noTask
  | t => t

structure BargeInResult where
  state : ConvState
  llm : TaskStatus
  tts : TaskStatus
  trace : List MAction
deriving DecidableEq, Repr

/-- `ConversationManager._handle_barge_in` (lines 276-305).  Invoked by
`handle_audio` only while the state is SPEAKING (line 257).  It bumps the
barge-in counter, sets INTERRUPTED, cancels and awaits the generation then
the synthesis task, sends one clear message to Twilio, and finally sets
USER_SPEAKING. -/
def handleBargeIn (llm tts : TaskStatus) : BargeInResult :=
  { state := .userSpeaking
    llm := afterCancel llm
    tts := afterCancel tts
    trace := .setState .interrupted :: cancelActions true llm
      ++ cancelActions false tts ++ [.sendClear, .setState .userSpeaking] }

/-- The states in which line 265's tuple test lets audio through to the
recognizer: LISTENING, USER_SPEAKING, INTERRUPTED. -/
def allowedSendState (s : ConvState) : Bool :=
  s = .listening || s = .userSpeaking || s = .interrupted

structure AudioResult where
  state : ConvState
  llm : TaskStatus
  tts : TaskStatus
  sent : Bool
  trace : List MAction
deriving DecidableEq, Repr

/-- `ConversationManager.handle_audio` (lines 246-274): if the state is
SPEAKING and barge-in v2 is enabled, `_handle_barge_in` runs first (awaited
inline); then the frame is forwarded to the recognizer exactly when the
Deepgram socket exists and the state *now* is LISTENING, USER_SPEAKING or
INTERRUPTED. -/
def handleAudio (s : ConvState) (v2 : Bool) (llm tts : TaskStatus)
    (hasWs : Bool) : AudioResult :=
  let bi :=
    if s = .speaking ∧ v2 = true then handleBargeIn llm tts
    else { state := s, llm := llm, tts := tts, trace := [] }
  let send := hasWs && allowedSendState bi.state
  { state := bi.state
    llm := bi.llm
    tts := bi.tts
    sent := send
    trace := bi.trace ++ (if send then [.sendSTT] else []) }

/-- C4: handling a barge-in moves the state to INTERRUPTED first, cancels
and awaits the in-flight generation and synthesis tasks until neither is
still running, sends exactly one clear signal — after the cancellations —
and only after all of that transitions the state to USER_SPEAKING (the last
action of the handler). -/
theorem barge_in_protocol (llm tts : TaskStatus) :
    ((handleBargeIn llm tts).trace.head? = some (.setState .interrupted))
    ∧ ((handleBargeIn llm tts).trace.count .sendClear = 1)
    ∧ ((handleBargeIn llm tts).trace.getLast? = some (.setState .userSpeaking))
    ∧ ((handleBargeIn llm tts).state = .userSpeaking)
    ∧ ((handleBargeIn llm tts).llm ≠ .running)
    ∧ ((handleBargeIn llm tts).tts ≠ .running)
    ∧ (llm = .running →
        (handleBargeIn llm tts).trace.indexOf (.cancelAwait true)
          < (handleBargeIn llm tts).trace.indexOf .sendClear)
    ∧ (tts = .running →
        (handleBargeIn llm tts).trace.indexOf (.cancelAwait false)
          < (handleBargeIn llm tts).trace.indexOf .sendClear)
    ∧ ((handleBargeIn llm tts).trace.indexOf .sendClear + 2
        = (handleBargeIn llm tts).trace.length) := by
  cases llm <;> cases tts <;> exact (by decide)

/-- Witness for `barge_in_protocol` with both tasks in flight. -/
theorem barge_in_protocol_witness :
    ((handleBargeIn .running .running).trace.indexOf (.cancelAwait true)
      < (handleBargeIn .running .running).trace.indexOf .sendClear)
    ∧ ((handleBargeIn .running .running).trace.indexOf (.cancelAwait false)
      < (handleBargeIn .running .running).trace.indexOf .sendClear)
    ∧ ((handleBargeIn .running .running).trace.count .sendClear = 1) := by
  obtain ⟨_, h2, _, _, _, _, h7, h8, _⟩ := barge_in_protocol .running .running
  exact ⟨h7 rfl, h8 rfl, h2⟩

/-- C10: `handle_audio` forwards a frame to the recognizer only when the
state at the moment of sending is LISTENING, USER_SPEAKING or INTERRUPTED;
a frame arriving while THINKING is never sent, and neither is a frame
arriving while SPEAKING with barge-in v2 disabled. -/
theorem handle_audio_gating (s : ConvState) (v2 : Bool) (llm tts : TaskStatus)
    (hasWs : Bool) :
    ((handleAudio s v2 llm tts hasWs).sent = true →
      allowedSendState (handleAudio s v2 llm tts hasWs).state = true)
    ∧ ((handleAudio .thinking v2 llm tts hasWs).sent = false)
    ∧ ((handleAudio .speaking false llm tts hasWs).sent = false) := by
  cases s <;> cases v2 <;> cases llm <;> cases tts <;> cases hasWs <;>
    exact (by decide)

/-- Witness for `handle_audio_gating`: while LISTENING with a live socket
the frame is sent, and the sending state is an allowed one. -/
theorem handle_audio_gating_witness :
    allowedSendState (handleAudio .listening false .noTask .noTask true).state
      = true :=
  (handle_audio_gating .listening false .noTask .noTask true).1 (by decide)

/-! ## `VADIntegration.detect_barge_in` (`src/roxanne_vad_handler.py`
lines 460-516)

Each inbound 20 ms frame is abstracted to the VAD verdict it produces
(`vad_result["speech_detected"]` and `vad_result["confidence"]`); the
detection logic of lines 499-509 only reads those two fields.
-/

structure VadFrame where
  speechDetected : Bool
  confidence : ℚ
deriving DecidableEq, Repr

/-- `self.barge_in_threshold = 3` (line 470). -/
def bargeInThreshold : ℕ := 3

/-- `self.barge_in_confidence_threshold = 0.6` (line 471). -/
def bargeInConfidenceThreshold : ℚ := 3 / 5

/-- The test of line 502: speech detected with confidence strictly above the
confidence threshold. -/
def qualifies (f : VadFrame) : Bool :=
  f.speechDetected && bargeInConfidenceThreshold < f.confidence

/-- One call of `detect_barge_in` (lines 499-509): on a qualifying frame the
counter is incremented and barge-in is reported when it reaches the
threshold; on any other frame the counter is decremented with floor 0
(`max(0, self.consecutive_speech_frames - 1)`) and no barge-in is reported. -/
def bargeStep (c : ℕ) (f : VadFrame) : ℕ × Bool :=
  if qualifies f then (c + 1, bargeInThreshold ≤ c + 1)
  else (c - 1, false)

/-- Successive calls of `detect_barge_in`: final counter and the per-frame
`barge_in_detected` flags. -/
def bargeRun (c : ℕ) : List VadFrame → ℕ × List Bool
  | [] => (c, [])
  | f :: rest =>
    let s := bargeStep c f
    let r := bargeRun s.1 rest
    (r.1, s.2 :: r.2)

/-- Whether a frame sequence contains three *consecutive* qualifying frames. -/
def threeConsecutive : List VadFrame → Bool
  | f1 :: f2 :: f3 :: rest =>
    (qualifies f1 && qualifies f2 && qualifies f3)
      || threeConsecutive (f2 :: f3 :: rest)
  | _ => false

/-- Number of qualifying frames in a sequence. -/
def countQ (fs : List VadFrame) : ℕ := (fs.filter (fun f => qualifies f)).length

/-- A qualifying frame (speech, confidence 0.7) and a non-qualifying one. -/
def qFrame : VadFrame := ⟨true, 7 / 10⟩

def nFrame : VadFrame := ⟨false, 0⟩

theorem qualifies_qFrame : qualifies qFrame = true := by
  unfold qualifies qFrame bargeInConfidenceThreshold
  norm_num

theorem qualifies_nFrame : qualifies nFrame = false := rfl

/-- C5 counterexample: the sequence q,q,n,q,q never contains 3 consecutive
qualifying frames, yet `detect_barge_in` reports a barge-in on its last
frame: the miss only *decrements* the counter (`max(0, c - 1)`), so the
counter runs 1,2,1,2,3 and reaches the threshold. -/
theorem barge_in_debounce_counterexample :
    ((bargeRun 0 [qFrame, qFrame, nFrame, qFrame, qFrame]).2
      = [false, false, false, false, true])
    ∧ threeConsecutive [qFrame, qFrame, nFrame, qFrame, qFrame] = false := by
  constructor
  · simp [bargeRun, bargeStep, qualifies_qFrame, qualifies_nFrame, bargeInThreshold]
  · simp [threeConsecutive, qualifies_qFrame, qualifies_nFrame]

theorem bargeRun_append (c : ℕ) (xs ys : List VadFrame) :
    bargeRun c (xs ++ ys)
      = ((bargeRun (bargeRun c xs).1 ys).1,
         (bargeRun c xs).2 ++ (bargeRun (bargeRun c xs).1 ys).2) := by
  induction xs generalizing c with
  | nil => rfl
  | cons f rest ih =>
    have h := ih (bargeStep c f).1
    simp only [List.cons_append, bargeRun, List.append_eq, h]

theorem bargeRun_length (c : ℕ) (fs : List VadFrame) :
    (bargeRun c fs).2.length = fs.length := by
  induction fs generalizing c with
  | nil => rfl
  | cons f rest ih => simp [bargeRun, ih]

/-- The counter can grow by at most the number of qualifying frames. -/
theorem bargeRun_counter_le (c : ℕ) (fs : List VadFrame) :
    (bargeRun c fs).1 ≤ c + countQ fs := by
  induction fs generalizing c with
  | nil => simp [bargeRun, countQ]
  | cons f rest ih =>
    unfold bargeRun bargeStep
    by_cases hq : qualifies f
    · simp only [hq, if_true]
      calc (bargeRun (c + 1) rest).1 ≤ c + 1 + countQ rest := ih (c + 1)
        _ = c + countQ (f :: rest) := by
          unfold countQ
          rw [List.filter_cons_of_pos (by simpa using hq)]
          simp [Nat.add_comm, Nat.add_left_comm]
    · simp only [hq, if_false]
      calc (bargeRun (c - 1) rest).1 ≤ c - 1 + countQ rest := ih (c - 1)
        _ ≤ c + countQ (f :: rest) := by
          unfold countQ
          rw [List.filter_cons_of_neg (by simpa using hq)]
          omega

/-- Soundness half of the amended C5: whenever a barge-in is reported at
frame `i` (counting from 0, starting from counter `c`), frame `i` itself
qualifies and the qualifying frames seen so far plus the initial counter
amount to at least the threshold. -/
theorem bargeRun_flag_sound (fs : List VadFrame) (c i : ℕ)
    (h : (bargeRun c fs).2.get? i = some true) :
    (∃ f, fs.get? i = some f ∧ qualifies f = true)
    ∧ bargeInThreshold ≤ c + countQ (fs.take (i + 1)) := by
  induction fs generalizing c i with
  | nil => simp [bargeRun] at h
  | cons f rest ih =>
    cases i with
    | zero =>
      unfold bargeRun bargeStep at h
      by_cases hq : qualifies f
      · simp only [hq, if_true] at h
        have h3 : bargeInThreshold ≤ c + 1 := by
          simpa using h
        refine ⟨⟨f, rfl, hq⟩, ?_⟩
        unfold countQ
        rw [List.take_succ_cons, List.take_zero,
          List.filter_cons_of_pos (by simpa using hq)]
        simpa using h3
      · simp only [hq, if_false] at h
        simp at h
    | succ n =>
      unfold bargeRun at h
      simp only [List.get?_cons_succ] at h
      have step1 : (bargeStep c f).1 ≤ c + countQ [f] := by
        unfold bargeStep countQ
        cases hq : qualifies f <;> simp [hq, List.filter]
      obtain ⟨hf, hcount⟩ := ih (bargeStep c f).1 n h
      refine ⟨by simpa using hf, ?_⟩
      have hsplit : countQ ((f :: rest).take (n + 1 + 1))
          = countQ [f] + countQ (rest.take (n + 1)) := by
        unfold countQ
        rw [List.take_succ_cons]
        rw [show f :: rest.take (n + 1) = [f] ++ rest.take (n + 1) from rfl,
          List.filter_append, List.length_append]
      rw [hsplit]
      have : c + countQ [f] + countQ (rest.take (n + 1))
          ≥ (bargeStep c f).1 + countQ (rest.take (n + 1)) := by omega
      omega

/-- Liveness half of the amended C5: three consecutive qualifying frames
always report a barge-in at the third one, wherever they occur and whatever
the counter value. -/
theorem bargeRun_three_consecutive (c : ℕ) (pre rest : List VadFrame)
    (f1 f2 f3 : VadFrame)
    (h1 : qualifies f1 = true) (h2 : qualifies f2 = true)
    (h3 : qualifies f3 = true) :
    (bargeRun c (pre ++ [f1, f2, f3] ++ rest)).2.get? (pre.length + 2)
      = some true := by
  rw [show pre ++ [f1, f2, f3] ++ rest = pre ++ ([f1, f2, f3] ++ rest) from by
    simp, bargeRun_append]
  rw [List.get?_append_right (by rw [bargeRun_length]; omega)]
  rw [bargeRun_length]
  have hidx : pre.length + 2 - pre.length = 2 := by omega
  rw [hidx]
  set c1 := (bargeRun c pre).1
  simp only [List.cons_append, bargeRun, bargeStep, h1, h2, h3, if_true]
  simp only [List.get?_cons_succ, List.get?_cons_zero]
  have : bargeInThreshold ≤ c1 + 1 + 1 + 1 := by
    unfold bargeInThreshold
    omega
  simp [this]

/-- C5 (amended): while the agent is speaking, `detect_barge_in` maintains a
counter that is incremented on frames classified as speech with confidence
strictly above 0.6 and *decremented with floor 0* (not reset) on all other
frames; barge-in is reported exactly when the counter reaches 3.  Hence
3 consecutive qualifying 20 ms frames always report a barge-in at the third
frame, and any report happens on a qualifying frame after at least 3
qualifying frames have been seen — but the qualifying frames need *not* be
consecutive. -/
theorem barge_in_debounce (c : ℕ) (pre rest fs : List VadFrame)
    (f1 f2 f3 : VadFrame) (i : ℕ) :
    (qualifies f1 = true → qualifies f2 = true → qualifies f3 = true →
      (bargeRun c (pre ++ [f1, f2, f3] ++ rest)).2.get? (pre.length + 2)
        = some true)
    ∧ ((bargeRun 0 fs).2.get? i = some true →
        (∃ f, fs.get? i = some f ∧ qualifies f = true)
        ∧ 3 ≤ countQ (fs.take (i + 1))) := by
  constructor
  · intro h1 h2 h3
    exact bargeRun_three_consecutive c pre rest f1 f2 f3 h1 h2 h3
  · intro h
    have := bargeRun_flag_sound fs 0 i h
    simpa [bargeInThreshold] using this

/-- Witness for `barge_in_debounce`: 3 consecutive qualifying frames after a
non-qualifying one report at index 3, and the reported counterexample run
reports only on a qualifying frame with 3 qualifying frames seen. -/
theorem barge_in_debounce_witness :
    ((bargeRun 0 ([nFrame] ++ [qFrame, qFrame, qFrame] ++ [])).2.get? 3
      = some true)
    ∧ ((∃ f, [qFrame, qFrame, nFrame, qFrame, qFrame].get? 4 = some f
          ∧ qualifies f = true)
        ∧ 3 ≤ countQ ([qFrame, qFrame, nFrame, qFrame, qFrame].take 5)) := by
  have h1 := (barge_in_debounce 0 [nFrame] []
    [qFrame, qFrame, nFrame, qFrame, qFrame] qFrame qFrame qFrame 4).1
    qualifies_qFrame qualifies_qFrame qualifies_qFrame
  have h2 := (barge_in_debounce 0 [nFrame] []
    [qFrame, qFrame, nFrame, qFrame, qFrame] qFrame qFrame qFrame 4).2
    (by simp [bargeRun, bargeStep, qualifies_qFrame, qualifies_nFrame,
      bargeInThreshold])
  exact ⟨by simpa using h1, h2⟩

/-! ## `EchoCanceller.process` (`src/roxanne_vad_handler.py` lines 81-150)

The audio is modelled at PCM level as `List ℚ` (the mu-law conversions feed
only the arithmetic, and the claim concerns the double-talk control flow).
`refVector` is the reference buffer snapshot (`np.array(list(self.reference_buffer))`,
line 113), which at this point holds `taps` samples; `inputPcm` is the
truncated inbound frame.  The numpy weight update
`self.weights += step_size * error * ref_vector` is elementwise, defined when
the operand shapes agree, which is how it is modelled here (`zipWith`).
-/

def dot (a b : List ℚ) : ℚ := (List.zipWith (· * ·) a b).sum

/-- `np.mean(v ** 2)`. -/
def meanSq (v : List ℚ) : ℚ := dot v v / (v.length : ℚ)

/-- `self.dt_threshold = 0.5` (line 52). -/
def dtThreshold : ℚ := 1 / 2

/-- `self.dt_hangover = 10` frames (line 53). -/
def dtHangover : ℕ := 10

structure EchoState where
  weights : List ℚ
  dtCounter : ℕ
deriving DecidableEq, Repr

/--
The double-talk / NLMS core of `EchoCanceller.process` (lines 113-138):
echo estimate, error, powers, double-talk counter update
(`max(0, dt_counter - 1)` is ℕ subtraction), and the weight update gated on
`dt_counter == 0 and ref_power > 0`.
-/
def ecProcess (mu delta : ℚ) (st : EchoState) (inputPcm refVector : List ℚ) :
    EchoState :=
  let echoEstimate := dot refVector st.weights
  let error := inputPcm.map (fun x => x - echoEstimate)
  let inputPower := meanSq inputPcm
  let refPower := meanSq refVector
  let dtc := if dtThreshold * refPower < inputPower then dtHangover
    else st.dtCounter - 1
  let newWeights :=
    if dtc = 0 ∧ 0 < refPower then
      let stepSize := mu / (dot refVector refVector + delta)
      List.zipWith (fun w er => w + stepSize * er) st.weights
        (List.zipWith (fun e r => e * r) error refVector)
    else st.weights
  { weights := newWeights, dtCounter := dtc }

/-- Successive `process` calls on a list of (inbound, reference) frames. -/
def ecRun (mu delta : ℚ) (st : EchoState) (frames : List (List ℚ × List ℚ)) :
    EchoState :=
  frames.foldl (fun s fr => ecProcess mu delta s fr.1 fr.2) st

theorem ecProcess_dtCounter_ge (mu delta : ℚ) (st : EchoState)
    (inp ref : List ℚ) (hle : st.dtCounter ≤ dtHangover) :
    st.dtCounter - 1 ≤ (ecProcess mu delta st inp ref).dtCounter := by
  unfold ecProcess
  dsimp only
  by_cases hdt : dtThreshold * meanSq ref < meanSq inp
  · rw [if_pos hdt]
    unfold dtHangover at *
    omega
  · rw [if_neg hdt]

theorem ecProcess_frozen (mu delta : ℚ) (st : EchoState) (inp ref : List ℚ)
    (h : (ecProcess mu delta st inp ref).dtCounter ≠ 0) :
    (ecProcess mu delta st inp ref).weights = st.weights := by
  unfold ecProcess at *
  dsimp only at *
  rw [if_neg (by intro hc; exact h hc.1)]

/-- While the counter stays within the hangover and above the number of
remaining frames, the weights cannot change. -/
theorem ecRun_frozen (mu delta : ℚ) (frames : List (List ℚ × List ℚ)) :
    ∀ st : EchoState, frames.length < st.dtCounter → st.dtCounter ≤ dtHangover →
      (ecRun mu delta st frames).weights = st.weights := by
  induction frames with
  | nil => intro st _ _; rfl
  | cons f rest ih =>
    intro st hlen hle
    have hge := ecProcess_dtCounter_ge mu delta st f.1 f.2 hle
    have hne : (ecProcess mu delta st f.1 f.2).dtCounter ≠ 0 := by
      simp only [List.length_cons] at hlen
      omega
    have hstep := ecProcess_frozen mu delta st f.1 f.2 hne
    have hcnt : rest.length < (ecProcess mu delta st f.1 f.2).dtCounter := by
      simp only [List.length_cons] at hlen
      omega
    have hcnt2 : (ecProcess mu delta st f.1 f.2).dtCounter ≤ dtHangover := by
      unfold ecProcess
      dsimp only
      by_cases hdt : dtThreshold * meanSq f.2 < meanSq f.1
      · rw [if_pos hdt]
      · rw [if_neg hdt]
        omega
    calc (ecRun mu delta st (f :: rest)).weights
        = (ecRun mu delta (ecProcess mu delta st f.1 f.2) rest).weights := rfl
      _ = (ecProcess mu delta st f.1 f.2).weights := ih _ hcnt hcnt2
      _ = st.weights := hstep

/-- C7: in `EchoCanceller.process`, (1) whenever the inbound frame's mean
power exceeds the double-talk threshold times the reference power, the
double-talk counter is set to the hangover value (10) and the weights are
left untouched on that call; (2) the NLMS weights change only on calls where
the (just-updated) double-talk counter is zero and the reference power is
positive; (3) after a detection the adaptation stays frozen for the entire
hangover period: the detecting call plus the following 9 calls leave the
weights unchanged, whatever frames arrive. -/
theorem echo_double_talk_freeze (mu delta : ℚ) (st : EchoState)
    (inp ref : List ℚ) (rest : List (List ℚ × List ℚ)) :
    (dtThreshold * meanSq ref < meanSq inp →
      (ecProcess mu delta st inp ref).dtCounter = dtHangover
      ∧ (ecProcess mu delta st inp ref).weights = st.weights)
    ∧ ((ecProcess mu delta st inp ref).weights ≠ st.weights →
        (ecProcess mu delta st inp ref).dtCounter = 0 ∧ 0 < meanSq ref)
    ∧ (dtThreshold * meanSq ref < meanSq inp → rest.length ≤ dtHangover - 1 →
        (ecRun mu delta (ecProcess mu delta st inp ref) rest).weights
          = st.weights) := by
  refine ⟨?_, ?_, ?_⟩
  · intro hdt
    have hcnt : (ecProcess mu delta st inp ref).dtCounter = dtHangover := by
      unfold ecProcess
      dsimp only
      rw [if_pos hdt]
    refine ⟨hcnt, ecProcess_frozen mu delta st inp ref ?_⟩
    rw [hcnt]
    unfold dtHangover
    omega
  · intro hw
    unfold ecProcess at *
    dsimp only at *
    by_cases hg : (if dtThreshold * meanSq ref < meanSq inp then dtHangover
        else st.dtCounter - 1) = 0 ∧ 0 < meanSq ref
    · exact hg
    · rw [if_neg hg] at hw
      exact absurd rfl hw
  · intro hdt hlen
    have hcnt : (ecProcess mu delta st inp ref).dtCounter = dtHangover := by
      unfold ecProcess
      dsimp only
      rw [if_pos hdt]
    have hfrozen : (ecProcess mu delta st inp ref).weights = st.weights := by
      refine ecProcess_frozen mu delta st inp ref ?_
      rw [hcnt]
      unfold dtHangover
      omega
    rw [ecRun_frozen mu delta rest (ecProcess mu delta st inp ref)
      (by rw [hcnt]; unfold dtHangover at *; omega)
      (by rw [hcnt]), hfrozen]

/-- Witness for `echo_double_talk_freeze`: inbound frame `[2]` against the
reference `[1, 1]` (input power 4, reference power 1) triggers double-talk
detection; nine further frames leave the zero filter untouched. -/
theorem echo_double_talk_freeze_witness :
    ((ecProcess (1/1000) (1/100) ⟨[0, 0], 0⟩ [2] [1, 1]).dtCounter = dtHangover
      ∧ (ecProcess (1/1000) (1/100) ⟨[0, 0], 0⟩ [2] [1, 1]).weights = [0, 0])
    ∧ (ecRun (1/1000) (1/100) (ecProcess (1/1000) (1/100) ⟨[0, 0], 0⟩ [2] [1, 1])
        (List.replicate 9 ([0], [1, 1]))).weights = [0, 0] := by
  have hdt : dtThreshold * meanSq [(1 : ℚ), 1] < meanSq [(2 : ℚ)] := by
    unfold dtThreshold meanSq dot
    norm_num
  obtain ⟨h1, _, h3⟩ := echo_double_talk_freeze (1/1000) (1/100) ⟨[0, 0], 0⟩
    [2] [1, 1] (List.replicate 9 ([0], [1, 1]))
  exact ⟨h1 hdt, h3 hdt (by simp [dtHangover])⟩

/-! ## `VoxanneOrchestrator._process` (`src/roxanne_production.py` lines 259-327)

A turn: state := PROCESSING, the user text is appended to history and
`cancel_llm` cleared (lines 261-263); then a *single*
`groq.chat.completions.create(...)` call (line 267) — the `try` block has no
retry loop — streams deltas, speaking sentence-sized pieces; any exception
lands in the handler of lines 322-324, which speaks a fixed apology; finally
the state returns to LISTENING unless it is INTERRUPTED (lines 326-327).
The service's behavior is modelled as a function from the attempt number to
an outcome, so that the number of attempts the code performs is observable.
Barge-in is a concurrent event outside a single `_process` run, so
`cancel_llm` stays `False` for the whole modelled run (it is cleared at
line 263).
-/

inductive PState where
  | idle
  | listening
  | processing
  | speaking
  | interrupted
deriving DecidableEq, Repr

/-- Outcome of one connection attempt to the generation service. -/
inductive GenAttempt where
  | ok (deltas : List String)
  | connectionError
deriving DecidableEq, Repr

structure SpeakState where
  spoken : List String
  state : PState
  cancelTts : Bool
deriving DecidableEq, Repr

/-- `VoxanneOrchestrator._speak` (lines 330-372): returns immediately on
empty text or a pending `cancel_tts` (leaving the flag set); otherwise sets
SPEAKING, clears `cancel_tts`, and streams the synthesized sentence. -/
def prodSpeak (s : SpeakState) (text : String) : SpeakState :=
  if text.toList.isEmpty || s.cancelTts then s
  else { spoken := s.spoken ++ [text], state := .speaking, cancelTts := false }

/-- The break-point list of line 296, with `end.rstrip()` applied. -/
def prodEnds : List (List Char) :=
  [['.', ' '], ['!', ' '], ['?', ' '], ['.'], ['!'], ['?']]

def prodFindAux :
    List (List Char) → List Char → Option (List Char × List Char × List Char)
  | [], _ => none
  | e :: es, buf =>
    match splitOnce e buf with
    | some (pre, post) => some (pre, pyRstrip e, post)
    | none => prodFindAux es buf

/-- The `for end in [...]` loop of lines 296-302 (with its `else` clause
mapped to `none`): first end marker, in list order, found in the buffer. -/
def findProdSplit (buf : List Char) : Option (List Char × List Char × List Char) :=
  prodFindAux prodEnds buf

/-- Line 288: `any(punct in buffer for punct in ['.', '!', '?'])`. -/
def hasPunct (buf : List Char) : Bool :=
  buf.any (fun c => c = '.' || c = '!' || c = '?')

structure ProdAcc where
  sp : SpeakState
  response : List Char
  buffer : List Char
deriving DecidableEq, Repr

/-- One iteration of the `async for chunk in stream` body (lines 277-305):
empty deltas are skipped; otherwise the delta is accumulated and, when the
buffer holds a punctuation mark or exceeds 50 characters, a sentence is
spoken (the whole buffer when no break point is found). -/
def prodStep1 (acc : ProdAcc) (delta : List Char) : ProdAcc :=
  if delta.isEmpty then acc
  else
    let buf := acc.buffer ++ delta
    let resp := acc.response ++ delta
    if hasPunct buf || decide (50 < buf.length) then
      match findProdSplit buf with
      | some (pre, e, post) => ⟨prodSpeak acc.sp (String.mk (pre ++ e)), resp, post⟩
      | none => ⟨prodSpeak acc.sp (String.mk buf), resp, []⟩
    else ⟨acc.sp, resp, buf⟩

def prodLoop (acc : ProdAcc) : List (List Char) → ProdAcc
  | [] => acc
  | d :: ds => prodLoop (prodStep1 acc d) ds

/-- Lines 313-315: keep the system entry and the last 18 messages once the
history exceeds 20 entries. -/
def historyTrim (msgs : List Msg) : List Msg :=
  if 20 < msgs.length then
    match msgs with
    | m0 :: _ => m0 :: msgs.drop (msgs.length - 18)
    | [] => []
  else msgs

def fallbackLine : String := "Sorry, could you repeat that?"

structure ProcessResult where
  attemptsMade : ℕ
  messages : List Msg
  sp : SpeakState
  finalState : PState
deriving DecidableEq, Repr

/-- `VoxanneOrchestrator._process` (lines 259-327).  `service n` is what the
generation service would answer to the `n`-th connection attempt; the code
performs exactly one. -/
def processTurn (service : ℕ → GenAttempt) (msgs : List Msg) (text : String)
    (sp0 : SpeakState) : ProcessResult :=
  let msgs1 := msgs ++ [⟨"user", text⟩]
  let sp1 : SpeakState := { sp0 with state := .processing }
  match service 0 with
  | .connectionError =>
    let sp2 := prodSpeak sp1 fallbackLine
    { attemptsMade := 1
      messages := msgs1
      sp := sp2
      finalState := if sp2.state = .interrupted then sp2.state else .listening }
  | .ok deltas =>
    let acc := prodLoop ⟨sp1, [], []⟩ (deltas.map String.toList)
    let sp2 := if pyStrip acc.buffer ≠ [] then
        prodSpeak acc.sp (String.mk (pyStrip acc.buffer))
      else acc.sp
    let msgs2 := if acc.response.isEmpty then msgs1
      else historyTrim (msgs1 ++ [⟨"assistant", String.mk acc.response⟩])
    { attemptsMade := 1
      messages := msgs2
      sp := sp2
      finalState := if sp2.state = .interrupted then sp2.state else .listening }

/-- C9 counterexample: with a generation service whose connections always
fail, the turn makes exactly one request — there is no retry anywhere in the
handler — so the claimed retry-once-with-backoff does not happen. -/
theorem no_retry_counterexample :
    ((processTurn (fun _ => .connectionError) [] "hello"
        ⟨[], .listening, false⟩).attemptsMade = 1)
    ∧ ((processTurn (fun _ => .connectionError) [] "hello"
        ⟨[], .listening, false⟩).attemptsMade ≠ 2) := by
  refine ⟨rfl, by decide⟩

/-- C9 (amended): a generation request that fails with a connection error is
*not* retried — the turn issues exactly one request — and the handler
immediately speaks the fixed apologetic fallback line
"Sorry, could you repeat that?" and returns the state machine to LISTENING
(the turn was not interrupted, and `cancel_tts` is clear on an uninterrupted
turn). -/
theorem generation_failure_fallback (service : ℕ → GenAttempt)
    (msgs : List Msg) (text : String) (sp0 : SpeakState)
    (h : service 0 = .connectionError) (hc : sp0.cancelTts = false) :
    ((processTurn service msgs text sp0).attemptsMade = 1)
    ∧ ((processTurn service msgs text sp0).sp.spoken
        = sp0.spoken ++ [fallbackLine])
    ∧ ((processTurn service msgs text sp0).finalState = .listening)
    ∧ ((processTurn service msgs text sp0).messages
        = msgs ++ [⟨"user", text⟩]) := by
  have hsp : prodSpeak { sp0 with state := .processing } fallbackLine
      = { spoken := sp0.spoken ++ [fallbackLine], state := .speaking,
          cancelTts := false } := by
    unfold prodSpeak
    rw [if_neg (by rw [hc]; decide)]
  simp [processTurn, h, hsp]

/-- Witness for `generation_failure_fallback` on a failing service. -/
theorem generation_failure_fallback_witness :
    ((processTurn (fun _ => .connectionError) [⟨"system", "prompt"⟩] "hi there"
        ⟨[], .listening, false⟩).sp.spoken = [] ++ [fallbackLine])
    ∧ ((processTurn (fun _ => .connectionError) [⟨"system", "prompt"⟩] "hi there"
        ⟨[], .listening, false⟩).finalState = .listening) := by
  obtain ⟨_, h2, h3, _⟩ := generation_failure_fallback (fun _ => .connectionError)
    [⟨"system", "prompt"⟩] "hi there" ⟨[], .listening, false⟩ rfl rfl
  exact ⟨h2, h3⟩

/-! ## Task lifecycle of the ConversationManager event loop (C2)

The manager runs on a single-threaded asyncio loop: code between two awaits
executes atomically.  Each event below is one such atomic region of
`src/conversation_manager.py`, acting on the conversation state, the
`ctx.llm_task` slot, the suspended `_handle_barge_in` continuation, and the
set of generation tasks that are still running but no longer referenced by
the slot.  `ctx.tts_task` is *never assigned a task* anywhere in the file
(only read, cancelled defensively, and reset to `None`), so synthesis runs
inline inside the generation task and no synthesis task exists.

The decisive modelling point: `_handle_barge_in` evaluates
`await self.ctx.llm_task` once, capturing the task object; when that task
finishes, the handler is queued to resume, and its resumption
(lines 290-305) is UNCONDITIONAL — `self.ctx.llm_task = None`, the
(vacuous) tts block, `_send_clear_audio`, `_set_state(USER_SPEAKING)` —
even if `_process_user_input` has meanwhile stored a NEW running task in
the slot.  Nulling the slot then orphans that new task: it keeps running
with no reference left to cancel it.

The model starts after `start()` has returned (the WebSocket driver in
`roxanne_v2.py` awaits `manager.start(...)` before it processes any media
event, so the greeting cannot overlap the events below); at that point the
state is LISTENING and no task exists.
-/

/-- What the `ctx.llm_task` slot references: nothing, a live task, a live
task whose cancellation has been requested, or a finished task. -/
inductive SlotLife where
  | noneT
  | running
  | cancelling
  | doneT
deriving DecidableEq, Repr

/-- The `_handle_barge_in` continuation: not in flight, suspended at
`await self.ctx.llm_task`, or queued to resume (the awaited task ended). -/
inductive HandlerLife where
  | idle
  | waiting
  | ready
deriving DecidableEq, Repr

structure MgrState where
  st : ConvState
  slot : SlotLife
  handler : HandlerLife
  orphans : ℕ
deriving DecidableEq, Repr

/-- Atomic regions of the manager loop:
* `interim` — a nonempty interim transcript (lines 376-400): LISTENING
  becomes USER_SPEAKING, timers are rescheduled, no task is touched.
* `finalize` — a final transcript (417), silence timeout (478-483),
  semantic timeout (467-472), utterance end (487-492) or empty-final check
  (496-501): all five sites run `_process_user_input` only when the state
  is USER_SPEAKING; it sets THINKING and stores a fresh generation task in
  the slot (lines 548-561) with no intervening await — overwriting a
  reference to a still-running task orphans that task.
* `bargeIn` — `handle_audio` during SPEAKING with barge-in v2
  (lines 257-259): `_handle_barge_in` sets INTERRUPTED and, if a live
  generation task exists, cancels it and suspends awaiting it; with no
  live task the handler runs straight through to USER_SPEAKING.
* `bargeInDone` — the queued handler continuation runs (lines 290-305),
  *unconditionally*: the slot is nulled (orphaning any running task it
  holds), the clear is sent and the state forced to USER_SPEAKING.
* `slotSpeaking` — the slot task reaches line 578 and sets SPEAKING.
* `slotEndOk` / `slotEndErr` / `slotEndCancel` — the task referenced by
  the slot ends via lines 606-620 / 624-626 / 622-623; if it was the
  awaited (cancelling) task, the barge-in handler becomes ready.
* `orphanEnd` — an orphaned task ends (same three code paths; state
  updates omitted as no claim depends on them); if the handler was
  awaiting it, the handler becomes ready. -/
inductive MgrEvent where
  | interim
  | finalize
  | bargeIn
  | bargeInDone
  | slotSpeaking
  | slotEndOk
  | slotEndErr
  | slotEndCancel
  | orphanEnd
deriving DecidableEq, Repr

/-- One atomic step; an event whose guard does not hold is a no-op. -/
def step (s : MgrState) : MgrEvent → MgrState
  | .interim =>
    if s.st = .listening then { s with st := .userSpeaking } else s
  | .finalize =>
    if s.st = .userSpeaking then
      { s with
        st := .thinking
        slot := .running
        orphans := s.orphans
          + (if s.slot = .running ∨ s.slot = .cancelling then 1 else 0) }
    else s
  | .bargeIn =>
    if s.st = .speaking then
      if s.slot = .running then
        { s with st := .interrupted, slot := .cancelling, handler := .waiting }
      else { s with st := .userSpeaking }
    else s
  | .bargeInDone =>
    if s.handler = .ready then
      { s with
        st := .userSpeaking
        slot := .noneT
        handler := .idle
        orphans := s.orphans
          + (if s.slot = .running ∨ s.slot = .cancelling then 1 else 0) }
    else s
  | .slotSpeaking =>
    if s.slot = .running ∧ s.st = .thinking then { s with st := .speaking }
    else s
  | .slotEndOk =>
    match s.slot with
    | .running =>
      ⟨if s.st = .speaking then .listening else s.st, .doneT, s.handler,
        s.orphans⟩
    | .cancelling =>
      ⟨if s.st = .speaking then .listening else s.st, .doneT, .ready,
        s.orphans⟩
    | _ => s
  | .slotEndErr =>
    match s.slot with
    | .running => ⟨.listening, .doneT, s.handler, s.orphans⟩
    | .cancelling => ⟨.listening, .doneT, .ready, s.orphans⟩
    | _ => s
  | .slotEndCancel =>
    match s.slot with
    | .cancelling => { s with slot := .doneT, handler := .ready }
    | _ => s
  | .orphanEnd =>
    if 0 < s.orphans then
      { s with
        orphans := s.orphans - 1
        handler := if s.handler = .waiting then .ready else s.handler }
    else s

/-- The state right after `start()` returns. -/
def initState : MgrState := ⟨.listening, .noneT, .idle, 0⟩

def run (evs : List MgrEvent) : MgrState := evs.foldl step initState

/-- The event sequence that breaks the invariant: a turn's generation task
is barged in; it swallows the `CancelledError` inside `_speak_sentence`
(line 671) and then dies on a stream error, whose handler at line 626 sets
LISTENING while `_handle_barge_in` is still awaiting it; a buffered interim
plus final transcript then start a new generation task before the queued
handler resumption runs; the resumption nulls the slot — orphaning that
running task — and forces USER_SPEAKING, whereupon the next finalized
utterance starts yet another generation task. -/
def doubleTaskTrace : List MgrEvent :=
  [.interim, .finalize, .slotSpeaking, .bargeIn, .slotEndErr,
   .interim, .finalize, .bargeInDone, .finalize]

/-- C2 is violated by the code: after `doubleTaskTrace`, the slot holds a
running generation task while another orphaned generation task is still
running — two concurrent in-flight generation tasks — and the final
`finalize` step started its new task from USER_SPEAKING while the orphaned
task had been neither cancelled nor completed. -/
theorem two_generation_tasks_reachable :
    ((run doubleTaskTrace).slot = .running ∧ (run doubleTaskTrace).orphans = 1)
    ∧ ((run (doubleTaskTrace.take 8)).st = .userSpeaking
      ∧ (run (doubleTaskTrace.take 8)).orphans = 1
      ∧ (run (doubleTaskTrace.take 8)).slot = .noneT) := by
  refine ⟨⟨by decide, by decide⟩, by decide, by decide, by decide⟩

/-! ## The Semantic Endpointer as a timed simulation (C3)

Discrete-event model of the endpointing paths of
`src/conversation_manager.py`: interim transcript events carry an absolute
arrival time in milliseconds; the silence timer (`_silence_timeout`,
lines 474-483, delay `endpoint_ms + 50`) and the semantic timer
(`_semantic_timeout`, lines 463-472, delay `min(endpoint_ms, 150)`) are
pending absolute deadlines.  A timer handle fires at most once; creating a
new timer first cancels the previous one (lines 392-396, 453-454), which the
model expresses by overwriting the deadline.  Before an interim event at
time `t` is handled, every pending timer whose deadline already passed
(strictly before `t`) fires; after the last event the remaining timers fire
in deadline order.  `_process_user_input` (lines 548-561) drops texts
shorter than 2 characters and otherwise forwards the utterance (appending it
to `processed`) and moves the state to THINKING.
-/

structure EPState where
  st : ConvState
  currentTranscript : List Char
  silenceDeadline : Option ℕ
  semanticDeadline : Option (ℕ × List Char)
  processed : List (List Char)
deriving DecidableEq, Repr

def epInit : EPState :=
  ⟨.listening, [], none, none, []⟩

/-- `_process_user_input` (lines 548-561), up to the creation of the
generation task. -/
def epProcess (s : EPState) (text : List Char) : EPState :=
  if text.length < 2 then s
  else { s with st := .thinking, processed := s.processed ++ [text] }

/-- Body of `_silence_timeout` after its sleep (lines 478-483); the fired
handle is spent either way. -/
def epSilenceFire (s : EPState) : EPState :=
  let s0 := { s with silenceDeadline := none }
  if s0.st = .userSpeaking ∧ ¬s0.currentTranscript.isEmpty then
    epProcess { s0 with semanticDeadline := none } s0.currentTranscript
  else s0

/-- Body of `_semantic_timeout` after its sleep (lines 467-472): the
snapshot is processed only if the transcript has not changed. -/
def epSemanticFire (s : EPState) (snapshot : List Char) : EPState :=
  let s0 := { s with semanticDeadline := none }
  if s0.st = .userSpeaking ∧ s0.currentTranscript = snapshot then
    epProcess { s0 with silenceDeadline := none } snapshot
  else s0

/-- Fire one pending timer with deadline strictly before `t`, earliest
first (the two deadlines never tie in reachable runs: a pending semantic
deadline is always strictly below the silence deadline). -/
def epFireOne (s : EPState) (t : ℕ) : Option EPState :=
  match s.semanticDeadline, s.silenceDeadline with
  | some (d, snap), some d2 =>
    if d < t ∧ d ≤ d2 then some (epSemanticFire s snap)
    else if d2 < t then some (epSilenceFire s)
    else none
  | some (d, snap), none => if d < t then some (epSemanticFire s snap) else none
  | none, some d2 => if d2 < t then some (epSilenceFire s) else none
  | none, none => none

/-- Fire every timer due before time `t` (there are at most two handles). -/
def epFireDue (s : EPState) (t : ℕ) : EPState :=
  match epFireOne s t with
  | some s1 =>
    match epFireOne s1 t with
    | some s2 => s2
    | none => s1
  | none => s

/-- Handling of one nonempty-or-empty interim transcript result
(lines 364-400): the text is stripped; an empty result returns immediately;
otherwise LISTENING becomes USER_SPEAKING, the transcript is recorded, the
silence timer is rescheduled, and — when `_looks_complete` holds — the
semantic timer is (re)scheduled on the current snapshot. -/
def epInterim (endpointMs : ℕ) (s : EPState) (t : ℕ) (raw : String) : EPState :=
  let tr := pyStrip raw.toList
  if tr.isEmpty then s
  else
    let s1 := if s.st = .listening then { s with st := .userSpeaking } else s
    let s2 :=
      { s1 with
        currentTranscript := tr
        silenceDeadline := some (t + silenceDelayMs endpointMs) }
    if looksComplete (String.mk tr) = some true then
      { s2 with semanticDeadline := some (t + semanticDelayMs endpointMs, tr) }
    else s2

def epStep (endpointMs : ℕ) (s : EPState) (ev : ℕ × String) : EPState :=
  epInterim endpointMs (epFireDue s ev.1) ev.1 ev.2

/-- After the stream goes silent, the remaining timers fire in deadline
order; a handle cancelled by the first firing does not run. -/
def epDrain (s : EPState) : EPState :=
  match s.semanticDeadline, s.silenceDeadline with
  | some (d, snap), some d2 =>
    if d ≤ d2 then
      let s1 := epSemanticFire s snap
      match s1.silenceDeadline with
      | some _ => epSilenceFire s1
      | none => s1
    else
      let s1 := epSilenceFire s
      match s1.semanticDeadline with
      | some (_, snap2) => epSemanticFire s1 snap2
      | none => s1
  | some (_, snap), none => epSemanticFire s snap
  | none, some _ => epSilenceFire s
  | none, none => s

/-- A whole turn: the interim events arrive in order, then silence. -/
def epRun (endpointMs : ℕ) (events : List (ℕ × String)) : EPState :=
  epDrain (events.foldl (epStep endpointMs) epInit)

/-- At most one utterance is ever forwarded in a turn: either nothing has
been forwarded yet, or exactly one utterance has and the state is THINKING
(from which no endpointing path forwards again). -/
def epAtMostOne (s : EPState) : Prop :=
  s.processed = [] ∨ (s.st = .thinking ∧ s.processed.length = 1)

theorem epAtMostOne_of_fields {s s2 : EPState} (hst : s2.st = s.st)
    (hp : s2.processed = s.processed) (h : epAtMostOne s) : epAtMostOne s2 := by
  unfold epAtMostOne at *
  rw [hst, hp]
  exact h

theorem epProcess_amo (s : EPState) (text : List Char)
    (hst : s.st = .userSpeaking) (h : epAtMostOne s) :
    epAtMostOne (epProcess s text) := by
  have hp : s.processed = [] := by
    rcases h with h | ⟨h1, _⟩
    · exact h
    · rw [hst] at h1; exact absurd h1 (by decide)
  unfold epProcess
  split
  · exact h
  · exact Or.inr ⟨rfl, by rw [hp]; rfl⟩

theorem epSilenceFire_amo (s : EPState) (h : epAtMostOne s) :
    epAtMostOne (epSilenceFire s) := by
  unfold epSilenceFire
  simp only
  split
  · next hg => exact epProcess_amo _ _ hg.1 (epAtMostOne_of_fields rfl rfl h)
  · exact epAtMostOne_of_fields rfl rfl h

theorem epSemanticFire_amo (s : EPState) (snap : List Char)
    (h : epAtMostOne s) : epAtMostOne (epSemanticFire s snap) := by
  unfold epSemanticFire
  simp only
  split
  · next hg => exact epProcess_amo _ _ hg.1 (epAtMostOne_of_fields rfl rfl h)
  · exact epAtMostOne_of_fields rfl rfl h

theorem epFireOne_amo {s s1 : EPState} {t : ℕ} (hfo : epFireOne s t = some s1)
    (h : epAtMostOne s) : epAtMostOne s1 := by
  unfold epFireOne at hfo
  split at hfo
  · split at hfo
    · rw [← Option.some.inj hfo]
      exact epSemanticFire_amo _ _ h
    · split at hfo
      · rw [← Option.some.inj hfo]
        exact epSilenceFire_amo _ h
      · exact absurd hfo (by simp)
  · split at hfo
    · rw [← Option.some.inj hfo]
      exact epSemanticFire_amo _ _ h
    · exact absurd hfo (by simp)
  · split at hfo
    · rw [← Option.some.inj hfo]
      exact epSilenceFire_amo _ h
    · exact absurd hfo (by simp)
  · exact absurd hfo (by simp)

theorem epFireDue_amo (s : EPState) (t : ℕ) (h : epAtMostOne s) :
    epAtMostOne (epFireDue s t) := by
  unfold epFireDue
  cases h1 : epFireOne s t with
  | none => simp only [h1]; exact h
  | some s1 =>
    have hs1 := epFireOne_amo h1 h
    cases h2 : epFireOne s1 t with
    | none => simp only [h1, h2]; exact hs1
    | some s2 => simp only [h1, h2]; exact epFireOne_amo h2 hs1

theorem epInterim_amo (endpointMs : ℕ) (s : EPState) (t : ℕ) (raw : String)
    (h : epAtMostOne s) : epAtMostOne (epInterim endpointMs s t raw) := by
  unfold epInterim
  simp only
  by_cases he : (pyStrip raw.toList).isEmpty
  · rw [if_pos he]
    exact h
  · rw [if_neg he]
    have hs1 : epAtMostOne
        (if s.st = .listening then { s with st := .userSpeaking } else s) := by
      by_cases hl : s.st = .listening
      · rw [if_pos hl]
        rcases h with hp | ⟨hst, _⟩
        · exact Or.inl hp
        · rw [hl] at hst
          exact absurd hst (by decide)
      · rw [if_neg hl]
        exact h
    by_cases hlc : looksComplete (String.mk (pyStrip raw.toList)) = some true
    · rw [if_pos hlc]
      exact epAtMostOne_of_fields rfl rfl hs1
    · rw [if_neg hlc]
      exact epAtMostOne_of_fields rfl rfl hs1

theorem epDrain_amo (s : EPState) (h : epAtMostOne s) :
    epAtMostOne (epDrain s) := by
  unfold epDrain
  rcases hsm : s.semanticDeadline with _ | ⟨d, snap⟩ <;>
    rcases hsl : s.silenceDeadline with _ | d2 <;>
    simp only [hsm, hsl]
  · exact h
  · exact epSilenceFire_amo s h
  · exact epSemanticFire_amo s snap h
  · by_cases hdd : d ≤ d2
    · rw [if_pos hdd]
      have h1 := epSemanticFire_amo s snap h
      cases hss : (epSemanticFire s snap).silenceDeadline with
      | none => simp only [hss]; exact h1
      | some d3 => simp only [hss]; exact epSilenceFire_amo _ h1
    · rw [if_neg hdd]
      have h1 := epSilenceFire_amo s h
      cases hss : (epSilenceFire s).semanticDeadline with
      | none => simp only [hss]; exact h1
      | some p =>
        obtain ⟨d3, snap2⟩ := p
        simp only [hss]
        exact epSemanticFire_amo _ snap2 h1

/-- Unconditional guarantee: a turn never forwards more than one utterance,
whatever the interim stream and its timing. -/
theorem epRun_at_most_one (endpointMs : ℕ) (events : List (ℕ × String)) :
    (epRun endpointMs events).processed.length ≤ 1 := by
  have hfold : ∀ (l : List (ℕ × String)) (s : EPState), epAtMostOne s →
      epAtMostOne (l.foldl (epStep endpointMs) s) := by
    intro l
    induction l with
    | nil => intro s h; exact h
    | cons ev l2 ih =>
      intro s h
      rw [List.foldl_cons]
      exact ih _ (epInterim_amo endpointMs _ ev.1 ev.2
        (epFireDue_amo s ev.1 h))
  have hend := epDrain_amo _ (hfold events epInit (Or.inl rfl))
  rcases hend with hp | ⟨_, hlen⟩
  · rw [show (epRun endpointMs events).processed = [] from hp]
    decide
  · rw [show (epRun endpointMs events).processed.length = 1 from hlen]

/-- Mid-turn invariant: LISTENING or USER_SPEAKING, nothing forwarded yet,
and every pending deadline at or after `bound`. -/
def epPre (bound : ℕ) (s : EPState) : Prop :=
  (s.st = .listening ∨ s.st = .userSpeaking) ∧ s.processed = []
  ∧ (s.silenceDeadline = none
      ∨ ∃ d, s.silenceDeadline = some d ∧ bound ≤ d)
  ∧ (s.semanticDeadline = none
      ∨ ∃ d snap, s.semanticDeadline = some (d, snap) ∧ bound ≤ d)

/-- After at least one nonempty interim: additionally the state is
USER_SPEAKING with the given transcript and a pending silence timer. -/
def epGood (bound : ℕ) (cur : List Char) (s : EPState) : Prop :=
  s.st = .userSpeaking ∧ s.currentTranscript = cur ∧ s.processed = []
  ∧ (∃ d, s.silenceDeadline = some d ∧ bound ≤ d)
  ∧ (s.semanticDeadline = none
      ∨ ∃ d snap, s.semanticDeadline = some (d, snap) ∧ bound ≤ d)

theorem epGood_pre (bound : ℕ) (cur : List Char) (s : EPState)
    (h : epGood bound cur s) : epPre bound s := by
  obtain ⟨h1, _, h3, ⟨d, hd, hdb⟩, h5⟩ := h
  exact ⟨Or.inr h1, h3, Or.inr ⟨d, hd, hdb⟩, h5⟩

/-- No timer fires before an event that arrives at or before `bound`. -/
theorem epFireDue_late (s : EPState) (t bound : ℕ)
    (hsil : s.silenceDeadline = none
      ∨ ∃ d, s.silenceDeadline = some d ∧ bound ≤ d)
    (hsem : s.semanticDeadline = none
      ∨ ∃ d snap, s.semanticDeadline = some (d, snap) ∧ bound ≤ d)
    (ht : t ≤ bound) :
    epFireDue s t = s := by
  have hone : epFireOne s t = none := by
    unfold epFireOne
    rcases hsem with hsem | ⟨d, snap, hsem, hd⟩ <;>
      rcases hsil with hsil | ⟨d2, hsil, hd2⟩ <;>
      simp only [hsem, hsil]
    · rw [if_neg (by omega)]
    · rw [if_neg (by omega)]
    · rw [if_neg (by rintro ⟨h1, _⟩; omega), if_neg (by omega)]
  unfold epFireDue
  rw [hone]

theorem epInterim_good (endpointMs bound : ℕ) (s : EPState) (t : ℕ)
    (raw : String)
    (hst : s.st = .listening ∨ s.st = .userSpeaking)
    (hproc : s.processed = [])
    (hsem : s.semanticDeadline = none
      ∨ ∃ d snap, s.semanticDeadline = some (d, snap) ∧ bound ≤ d)
    (hb1 : bound ≤ t + silenceDelayMs endpointMs)
    (hb2 : bound ≤ t + semanticDelayMs endpointMs)
    (hraw : pyStrip raw.toList ≠ []) :
    epGood bound (pyStrip raw.toList) (epInterim endpointMs s t raw) := by
  unfold epInterim
  simp only
  rw [if_neg (by simpa [List.isEmpty_iff] using hraw)]
  have hst1 : (if s.st = .listening then { s with st := .userSpeaking } else s).st
      = .userSpeaking := by
    by_cases h : s.st = .listening
    · rw [if_pos h]
    · rw [if_neg h]
      rcases hst with h1 | h1
      · exact absurd h1 h
      · exact h1
  have hproc1 :
      (if s.st = .listening then { s with st := .userSpeaking } else s).processed
        = [] := by
    by_cases h : s.st = .listening
    · rw [if_pos h]; exact hproc
    · rw [if_neg h]; exact hproc
  have hsem1 :
      (if s.st = .listening then { s with st := .userSpeaking } else s).semanticDeadline
        = s.semanticDeadline := by
    by_cases h : s.st = .listening
    · rw [if_pos h]
    · rw [if_neg h]
  by_cases hlc : looksComplete (String.mk (pyStrip raw.toList)) = some true
  · rw [if_pos hlc]
    exact ⟨hst1, rfl, hproc1, ⟨t + silenceDelayMs endpointMs, rfl, hb1⟩,
      Or.inr ⟨t + semanticDelayMs endpointMs, pyStrip raw.toList, rfl, hb2⟩⟩
  · rw [if_neg hlc]
    refine ⟨hst1, rfl, hproc1, ⟨t + silenceDelayMs endpointMs, rfl, hb1⟩, ?_⟩
    rw [show ({ (if s.st = .listening then { s with st := .userSpeaking } else s) with
        currentTranscript := pyStrip raw.toList,
        silenceDeadline := some (t + silenceDelayMs endpointMs) } : EPState).semanticDeadline
      = s.semanticDeadline from hsem1]
    exact hsem

theorem epStep_good (endpointMs bound : ℕ) (s : EPState) (t : ℕ) (raw : String)
    (hpre : epPre bound s)
    (ht : t ≤ bound)
    (hb1 : bound ≤ t + silenceDelayMs endpointMs)
    (hb2 : bound ≤ t + semanticDelayMs endpointMs)
    (hraw : pyStrip raw.toList ≠ []) :
    epGood bound (pyStrip raw.toList) (epStep endpointMs s (t, raw)) := by
  obtain ⟨h1, h2, h3, h4⟩ := hpre
  unfold epStep
  rw [show (t, raw).1 = t from rfl, epFireDue_late s t bound h3 h4 ht]
  exact epInterim_good endpointMs bound s t raw h1 h2 h4 hb1 hb2 hraw

theorem epFold_keep (endpointMs bound : ℕ) (evs : List (ℕ × String)) :
    ∀ (s : EPState) (cur : List Char), epGood bound cur s →
    (∀ ev ∈ evs, pyStrip ev.2.toList ≠ []) →
    (∀ ev ∈ evs, ev.1 ≤ bound) →
    (∀ ev ∈ evs, bound ≤ ev.1 + silenceDelayMs endpointMs) →
    (∀ ev ∈ evs, bound ≤ ev.1 + semanticDelayMs endpointMs) →
    epGood bound (evs.foldl (fun _ ev => pyStrip ev.2.toList) cur)
      (evs.foldl (epStep endpointMs) s) := by
  induction evs with
  | nil => intro s cur h _ _ _ _; exact h
  | cons ev evs2 ih =>
    intro s cur h hne hlo hb1 hb2
    rw [List.foldl_cons, List.foldl_cons]
    have hstep := epStep_good endpointMs bound s ev.1 ev.2
      (epGood_pre bound cur s h)
      (hlo ev (List.mem_cons_self _ _))
      (hb1 ev (List.mem_cons_self _ _))
      (hb2 ev (List.mem_cons_self _ _))
      (hne ev (List.mem_cons_self _ _))
    exact ih (epStep endpointMs s (ev.1, ev.2)) (pyStrip ev.2.toList) hstep
      (fun e he => hne e (List.mem_cons_of_mem _ he))
      (fun e he => hlo e (List.mem_cons_of_mem _ he))
      (fun e he => hb1 e (List.mem_cons_of_mem _ he))
      (fun e he => hb2 e (List.mem_cons_of_mem _ he))

theorem foldl_replace_last {α β : Type} (g : α → β) (l : List α) (c : β) :
    l.foldl (fun _ ev => g ev) c
      = (match l.getLast? with
        | some e => g e
        | none => c) := by
  induction l generalizing c with
  | nil => rfl
  | cons e es ih =>
    cases es with
    | nil => rfl
    | cons e2 es2 =>
      rw [List.foldl_cons, ih, List.getLast?_cons_cons]
      have hs : (e2 :: es2).getLast?.isSome := List.getLast?_isSome.mpr (by simp)
      obtain ⟨x, hx⟩ := Option.isSome_iff_exists.mp hs
      rw [hx]

/-- Draining the timers of a good state forwards exactly the current
transcript, once, whichever timer fires first. -/
theorem epDrain_good (bound : ℕ) (cur : List Char) (s : EPState)
    (h : epGood bound cur s) (hlen : 2 ≤ cur.length) :
    (epDrain s).processed = [cur] := by
  obtain ⟨hst, hcur, hproc, ⟨d2, hsil, _⟩, hsem⟩ := h
  have hcne : ¬cur.isEmpty := by
    cases cur with
    | nil => simp at hlen
    | cons a l => simp
  have hsilfire : ∀ s1 : EPState, s1.st = .userSpeaking →
      s1.currentTranscript = cur → s1.processed = [] →
      (epSilenceFire s1).processed = [cur] := by
    intro s1 h1 h2 h3
    unfold epSilenceFire
    simp only
    rw [if_pos (by refine ⟨h1, ?_⟩; rw [h2]; exact hcne)]
    unfold epProcess
    simp only
    rw [h2, if_neg (by omega), h3]
    rfl
  rcases hsem with hsem | ⟨d, snap, hsem, _⟩
  · unfold epDrain
    simp only [hsem, hsil]
    exact hsilfire s hst hcur hproc
  · unfold epDrain
    simp only [hsem, hsil]
    by_cases hdd : d ≤ d2
    · rw [if_pos hdd]
      by_cases hmatch : s.currentTranscript = snap
      · have hfire : epSemanticFire s snap
            = { s with
                st := .thinking
                silenceDeadline := none
                semanticDeadline := none
                processed := s.processed ++ [snap] } := by
          unfold epSemanticFire
          simp only
          rw [if_pos (by exact ⟨hst, hmatch⟩)]
          unfold epProcess
          simp only
          rw [if_neg (by rw [← hmatch, hcur]; omega)]
        rw [hfire]
        simp only
        rw [hproc, ← hmatch, hcur]
        rfl
      · have hfire : epSemanticFire s snap = { s with semanticDeadline := none } := by
          unfold epSemanticFire
          simp only
          rw [if_neg (by rintro ⟨_, hc⟩; exact hmatch hc)]
        rw [hfire]
        simp only [hsil]
        exact hsilfire _ hst hcur hproc
    · rw [if_neg hdd]
      have hfire := hsilfire s hst hcur hproc
      have hclear : (epSilenceFire s).semanticDeadline = none := by
        unfold epSilenceFire
        simp only
        rw [if_pos (by refine ⟨hst, ?_⟩; rw [hcur]; exact hcne)]
        unfold epProcess
        simp only
        rw [hcur, if_neg (by omega)]
      rw [show (match (epSilenceFire s).semanticDeadline with
          | some (_, snap2) => epSemanticFire (epSilenceFire s) snap2
          | none => epSilenceFire s)
        = epSilenceFire s from by rw [hclear]]
      exact hfire

/-- C3 counterexample: the stream `["yes" @ 0 ms, "yes please" @ 160 ms]`
with the 180 ms silence threshold forwards `"yes"`, not the last observed
transcript `"yes please"`: `"yes"` is a listed complete phrase, so its
150 ms semantic timer fires before the second interim arrives, and the
later interim is dropped in THINKING. -/
theorem endpointer_not_last_counterexample :
    (epRun 180 [(0, "yes"), (160, "yes please")]).processed
      = [String.toList "yes"]
    ∧ (epRun 180 [(0, "yes"), (160, "yes please")]).processed
      ≠ [pyStrip (String.toList "yes please")] := by
  refine ⟨by decide, by decide⟩

/-- C3 (amended): the Semantic Endpointer finalizes and forwards *at most*
one utterance per turn for every interim stream and timing; and for every
one-turn stream whose events all arrive within the semantic-timer window
(`min(endpoint_ms, 150)` ms) of the first event — so that no endpoint timer
fires while text is still arriving — with nonempty stripped transcripts and
a last transcript at least 2 characters long, *exactly* one utterance is
forwarded, equal to the last observed transcript, even though both the
silence timer and the semantic timer are scheduled against it.  (When an
earlier complete-looking transcript outlives the semantic delay before the
next interim arrives, that earlier snapshot is forwarded instead of the
last transcript.) -/
theorem endpointer_single_forward (endpointMs : ℕ)
    (events : List (ℕ × String)) (e0 : ℕ × String)
    (rest : List (ℕ × String)) (tl : ℕ) (sl : String) :
    (epRun endpointMs events).processed.length ≤ 1
    ∧ ((e0 :: rest).getLast? = some (tl, sl) →
      (∀ ev ∈ e0 :: rest, pyStrip ev.2.toList ≠ []) →
      (∀ ev ∈ e0 :: rest, e0.1 ≤ ev.1) →
      (∀ ev ∈ e0 :: rest, ev.1 ≤ e0.1 + semanticDelayMs endpointMs) →
      2 ≤ (pyStrip sl.toList).length →
      (epRun endpointMs (e0 :: rest)).processed = [pyStrip sl.toList]) := by
  refine ⟨epRun_at_most_one endpointMs events, ?_⟩
  intro hlast hne hlo hhi hlen
  have hms : semanticDelayMs endpointMs ≤ silenceDelayMs endpointMs := by
    unfold semanticDelayMs silenceDelayMs
    have := Nat.min_le_left endpointMs 150
    omega
  set bound := e0.1 + semanticDelayMs endpointMs with hbound
  have hpre0 : epPre bound epInit :=
    ⟨Or.inl rfl, rfl, Or.inl rfl, Or.inl rfl⟩
  have h0 : epGood bound (pyStrip e0.2.toList)
      (epStep endpointMs epInit e0) := by
    have := epStep_good endpointMs bound epInit e0.1 e0.2 hpre0
      (hhi e0 (List.mem_cons_self _ _))
      (by have := hlo e0 (List.mem_cons_self _ _); omega)
      (by have := hlo e0 (List.mem_cons_self _ _); omega)
      (hne e0 (List.mem_cons_self _ _))
    simpa using this
  have hfold := epFold_keep endpointMs bound rest
    (epStep endpointMs epInit e0) (pyStrip e0.2.toList) h0
    (fun e he => hne e (List.mem_cons_of_mem _ he))
    (fun e he => hhi e (List.mem_cons_of_mem _ he))
    (fun e he => by have := hlo e (List.mem_cons_of_mem _ he); omega)
    (fun e he => by have := hlo e (List.mem_cons_of_mem _ he); omega)
  have hcur : rest.foldl (fun _ ev => pyStrip ev.2.toList) (pyStrip e0.2.toList)
      = pyStrip sl.toList := by
    have hall : (e0 :: rest).foldl (fun _ ev => pyStrip ev.2.toList)
        (pyStrip e0.2.toList)
        = rest.foldl (fun _ ev => pyStrip ev.2.toList) (pyStrip e0.2.toList) := by
      rw [List.foldl_cons]
    rw [← hall, foldl_replace_last, hlast]
  rw [hcur] at hfold
  unfold epRun
  rw [List.foldl_cons]
  exact epDrain_good bound (pyStrip sl.toList) _ hfold hlen

/-- Witness for `endpointer_single_forward`: the spec's example stream
`["how", "how are", "how are you"]` at 0, 60 and 120 ms with the default
180 ms silence threshold forwards exactly `"how are you"`. -/
theorem endpointer_single_forward_witness :
    (epRun 180 [(0, "how"), (60, "how are"), (120, "how are you")]).processed.length
      ≤ 1
    ∧ (epRun 180 [(0, "how"), (60, "how are"), (120, "how are you")]).processed
      = [String.toList "how are you"] := by
  have h := endpointer_single_forward 180
    [(0, "how"), (60, "how are"), (120, "how are you")] (0, "how")
    [(60, "how are"), (120, "how are you")] 120 "how are you"
  refine ⟨h.1, ?_⟩
  have h2 := h.2 (by decide) (by decide) (by decide) (by decide) (by decide)
  simpa using h2

end Voxanne
